import Mathlib

/-!
Verification of the calculator MCP server (enhanced_calculator_mcp.py) and the
Teradata University feed search tool (teradata_university_http.py).

The Python floats are modelled as rationals (ℚ); no claim under verification
depends on floating-point rounding.  Python dictionaries (insertion-ordered,
last-write-wins) are modelled as association lists with in-place update.
Strings are Lean strings; Python substring membership (`in`) and `str.lower`
are modelled on the underlying character lists.
-/

/-! ## String helpers modelling Python string primitives -/

/-- Model of Python `str.lower()` (ASCII case folding on the character list). -/
def pyLower (s : String) : String := ⟨s.data.map Char.toLower⟩

/-- True when the first character list is an initial segment of the second. -/
def charsStartWith : List Char → List Char → Bool
  | [], _ => true
  | _ :: _, [] => false
  | c :: cs, d :: ds => c == d && charsStartWith cs ds

/-- True when the first character list occurs contiguously inside the second. -/
def charsContain (needle : List Char) : List Char → Bool
  | [] => charsStartWith needle []
  | d :: ds => charsStartWith needle (d :: ds) || charsContain needle ds

/-- Model of Python substring membership: `needle in haystack`. -/
def pyIn (needle haystack : String) : Bool := charsContain needle.data haystack.data

/-- Lexicographic comparison of character lists by code point, the order
Python `sorted` uses on strings. -/
def charsLe : List Char → List Char → Bool
  | [], _ => true
  | _ :: _, [] => false
  | c :: cs, d :: ds => if c = d then charsLe cs ds else decide (c < d)

/-- Lexicographic comparison of strings by code point. -/
def strLe (s t : String) : Bool := charsLe s.data t.data

/-- Rendering of a numeric value into the interpolated strings the server
builds (stands in for Python float formatting). -/
def floatStr (x : ℚ) : String :=
  if x.den = 1 then toString x.num else toString x.num ++ "/" ++ toString x.den

/-! ## NamedValueStore: the `stored_values` dictionary -/

/-- The `stored_values` dictionary: an insertion-ordered association list from
names to numbers, as a Python dict. -/
abbrev Store := List (String × ℚ)

/-- Model of `stored_values[name] = value` on a Python dict: overwrite in
place when the key exists, append otherwise. -/
def dict_set (stored_values : Store) (name : String) (value : ℚ) : Store :=
  match stored_values with
  | [] => [(name, value)]
  | (k, w) :: rest =>
    if k = name then (k, value) :: rest else (k, w) :: dict_set rest name value

/-- Model of `name in stored_values` / `stored_values[name]`: first (only)
binding of `name`. -/
def dict_get (stored_values : Store) (name : String) : Option ℚ :=
  match stored_values with
  | [] => none
  | (k, w) :: rest => if k = name then some w else dict_get rest name

/-- Return value of the `store_number` tool. -/
structure StoreNumberResult where
  status : String
  message : String
  stored_count : ℕ
deriving DecidableEq, Repr

/-- The `store_number` tool: `stored_values[name] = value`, then report
success and the new size. -/
def store_number (name : String) (value : ℚ) (stored_values : Store) :
    StoreNumberResult × Store :=
  let s := dict_set stored_values name value
  (⟨"success", "Stored \x27" ++ name ++ "\x27 = " ++ floatStr value, s.length⟩, s)

/-- Return value of the `get_stored_number` tool: either the `found` payload
or the `not_found` payload with its error message. -/
inductive GetStoredResult where
  | found (name : String) (value : ℚ)
  | not_found (name : String) (error : String)
deriving DecidableEq, Repr

/-- The `get_stored_number` tool: look the name up, return the stored value
when present and the not-found error payload otherwise. -/
def get_stored_number (name : String) (stored_values : Store) : GetStoredResult :=
  match dict_get stored_values name with
  | some v => .found name v
  | none =>
    .not_found name ("No stored value found for \x27" ++ name ++
      "\x27. Use list_stored_numbers to see available values.")

/-- Return value of the `list_stored_numbers` tool. -/
structure ListStoredResult where
  stored_values : Store
  count : ℕ
  message : String
deriving DecidableEq, Repr

/-- The `list_stored_numbers` tool: returns the dictionary itself (hence its
insertion order), its size, and a usage message. -/
def list_stored_numbers (stored_values : Store) : ListStoredResult :=
  ⟨stored_values, stored_values.length,
    "Use get_stored_number(name) to retrieve a specific value"⟩

/-- Return value of the `clear_storage` tool. -/
structure ClearStorageResult where
  status : String
  message : String
  stored_values : Store
deriving DecidableEq, Repr

/-- The `clear_storage` tool: read the size, empty the dictionary, report the
count of removed entries in the message. -/
def clear_storage (stored_values : Store) : ClearStorageResult × Store :=
  (⟨"success", "Cleared " ++ toString stored_values.length ++ " stored value(s)", []⟩, [])

/-- One step of insertion sort on (name, value) pairs, ordered by name. -/
def insert_pair (p : String × ℚ) : List (String × ℚ) → List (String × ℚ)
  | [] => [p]
  | q :: rest => if strLe p.1 q.1 then p :: q :: rest else q :: insert_pair p rest

/-- Sorting of (name, value) pairs by name; models Python
`sorted(stored_values.items())` (keys are unique, so the name decides). -/
def sort_pairs : List (String × ℚ) → List (String × ℚ)
  | [] => []
  | p :: rest => insert_pair p (sort_pairs rest)

/-- The sequence of (name, value) pairs the `calculator://stored-values`
resource (`get_stored_values`) iterates over: `sorted(stored_values.items())`. -/
def get_stored_values_items (stored_values : Store) : List (String × ℚ) :=
  sort_pairs stored_values

/-- Decidable check that a pair sequence is sorted lexicographically by name. -/
def is_sorted_by_name : List (String × ℚ) → Bool
  | [] => true
  | [_] => true
  | p :: q :: rest => strLe p.1 q.1 && is_sorted_by_name (q :: rest)

/-! ## BoundedHistoryLog: the `calculation_history` list -/

/-- One entry of `calculation_history`: the dict appended by
`_add_to_history`. -/
structure HistRecord where
  operation : String
  expression : String
  result : ℚ
deriving DecidableEq, Repr

/-- The `_get_operator_symbol` helper: the `symbols` dict lookup with the raw
operation name as the default. -/
def _get_operator_symbol (operation : String) : String :=
  if operation = "add" then "+"
  else if operation = "subtract" then "-"
  else if operation = "multiply" then "×"
  else if operation = "divide" then "÷"
  else if operation = "power" then "^"
  else operation

/-- The `_add_to_history` helper: build the expression string, append the
record, and pop the front element when the length exceeds 10. -/
def _add_to_history (operation : String) (a b result : ℚ)
    (calculation_history : List HistRecord) : List HistRecord :=
  let expression := floatStr a ++ " " ++ _get_operator_symbol operation ++ " " ++ floatStr b
  let h := calculation_history ++ [⟨operation, expression, result⟩]
  if h.length > 10 then h.tail else h

/-- The arguments of one `_add_to_history` call. -/
structure HistCall where
  operation : String
  a : ℚ
  b : ℚ
  result : ℚ
deriving DecidableEq, Repr

/-- The record that a `_add_to_history` call appends. -/
def mk_record (c : HistCall) : HistRecord :=
  ⟨c.operation,
    floatStr c.a ++ " " ++ _get_operator_symbol c.operation ++ " " ++ floatStr c.b,
    c.result⟩

/-- The history produced by a sequence of `_add_to_history` calls starting
from the empty history. -/
def run_history (calls : List HistCall) : List HistRecord :=
  calls.foldl (fun h c => _add_to_history c.operation c.a c.b c.result h) []

/-! ## The divide tool over the whole module state -/

/-- The module-level mutable state of the server: `stored_values` and
`calculation_history`. -/
structure CalcState where
  stored_values : Store
  calculation_history : List HistRecord
deriving DecidableEq, Repr

/-- Return value of the `divide` tool: the success dict or the error dict. -/
inductive DivideResult where
  | ok (operation : String) (result : ℚ) (expression : String)
  | error (operation : String) (message : String)
deriving DecidableEq, Repr

/-- The `divide` tool: guard against a zero denominator (returning the error
dict and touching no state), otherwise compute, record, and return. -/
def divide (a b : ℚ) (st : CalcState) : DivideResult × CalcState :=
  if b = 0 then (.error "divide" "Cannot divide by zero", st)
  else
    let result := a / b
    (.ok "divide" result (floatStr a ++ " ÷ " ++ floatStr b ++ " = " ++ floatStr result),
      { st with
        calculation_history := _add_to_history "divide" a b result st.calculation_history })

/-! ## The Teradata University feed search -/

/-- One parsed feed entry, the fields `search_teradata_university` reads. -/
structure FeedEntry where
  title : String
  description : String
  link : String
  published : String
deriving DecidableEq, Repr

/-- One element of the list `search_teradata_university` returns: a matching
article dict or the no-content message dict. -/
inductive SearchItem where
  | article (title url published : String)
  | message (text : String)
deriving DecidableEq, Repr

/-- The match test of the search loop:
`query_lower in title.lower() or query_lower in description.lower()`. -/
def entry_matches (query_lower : String) (e : FeedEntry) : Bool :=
  pyIn query_lower (pyLower e.title) || pyIn query_lower (pyLower e.description)

/-- The `for entry in feed.entries` loop of `search_teradata_university`:
append each match, break once `len(results) >= max_results`. -/
def search_loop (query_lower : String) (max_results : ℤ) :
    List FeedEntry → List SearchItem → List SearchItem
  | [], results => results
  | e :: rest, results =>
    let results' :=
      if entry_matches query_lower e then
        results ++ [.article e.title e.link e.published]
      else results
    if (results'.length : ℤ) ≥ max_results then results'
    else search_loop query_lower max_results rest results'

/-- The `search_teradata_university` tool over already-parsed feed entries:
run the loop, and replace an empty result list by the no-content message. -/
def search_teradata_university (entries : List FeedEntry) (query : String)
    (max_results : ℤ) : List SearchItem :=
  let results := search_loop (pyLower query) max_results entries []
  if results = [] then [.message "No content found matching your query"] else results

/-! ## History lemmas -/

/-- A suffix of `_add_to_history` calls folded from any history. -/
theorem run_history_concat (calls : List HistCall) (c : HistCall) :
    run_history (calls ++ [c]) =
      _add_to_history c.operation c.a c.b c.result (run_history calls) := by
  simp [run_history, List.foldl_concat]

/-- Master characterization: the history after a sequence of calls is the
last (at most) 10 appended records, in call order. -/
theorem run_history_eq (calls : List HistCall) :
    run_history calls = (calls.map mk_record).drop (calls.length - 10) := by
  induction calls using List.reverseRecOn with
  | nil => rfl
  | append_singleton cs c ih =>
    rw [run_history_concat, ih, _add_to_history]
    have hrec : (⟨c.operation,
        floatStr c.a ++ " " ++ _get_operator_symbol c.operation ++ " " ++ floatStr c.b,
        c.result⟩ : HistRecord) = mk_record c := rfl
    simp only [hrec]
    set A := cs.map mk_record with hA
    have hAlen : A.length = cs.length := by simp [hA]
    by_cases hn : cs.length ≤ 9
    · have h0 : cs.length - 10 = 0 := by omega
      have h1 : (cs.length + 1) - 10 = 0 := by omega
      have hlen : (A.drop (cs.length - 10) ++ [mk_record c]).length ≤ 10 := by
        simp [hAlen]; omega
      simp only [h0, List.drop_zero] at *
      rw [if_neg (by omega)]
      simp [h1]
    · have h10 : 10 ≤ cs.length := by omega
      have hlen : (A.drop (cs.length - 10) ++ [mk_record c]).length = 11 := by
        simp [hAlen]; omega
      rw [if_pos (by omega)]
      rw [← List.drop_append_of_le_length (by omega), List.tail_drop]
      have h2 : (cs.length + 1) - 10 = (cs.length - 10) + 1 := by omega
      simp [h2]

/-- Claim C1: over every sequence of `_add_to_history` calls, the calculation
history has length at most 10 at all times, and the surviving records keep
their insertion order (the history is a suffix of the appended records in
call order). -/
theorem history_length_bounded (calls : List HistCall) :
    (run_history calls).length ≤ 10 ∧
    run_history calls <:+ calls.map mk_record := by
  rw [run_history_eq]
  refine ⟨?_, List.drop_suffix _ _⟩
  simp only [List.length_drop, List.length_map]
  omega

/-- Claim C2: after n > 10 `_add_to_history` calls the history holds exactly
10 records, and the oldest surviving record is the record of the (n-10+1)-th
call: eviction is strict FIFO, one oldest record per overflowing append. -/
theorem history_fifo_eviction (calls : List HistCall) (h : 10 < calls.length) :
    (run_history calls).length = 10 ∧
    (run_history calls).head? = some (mk_record calls[calls.length - 10]) := by
  rw [run_history_eq]
  constructor
  · simp [List.length_drop]; omega
  · rw [List.head?_drop, List.getElem?_eq_getElem (by simp; omega), List.getElem_map]

/-- Witness for C2 at a concrete sequence of 11 calls. -/
theorem history_fifo_eviction_witness :
    (run_history (List.replicate 11 (⟨"add", 1, 1, 2⟩ : HistCall))).length = 10 ∧
    (run_history (List.replicate 11 (⟨"add", 1, 1, 2⟩ : HistCall))).head? =
      some (mk_record (List.replicate 11
        (⟨"add", 1, 1, 2⟩ : HistCall))[(List.replicate 11 (⟨"add", 1, 1, 2⟩ : HistCall)).length - 10]) :=
  history_fifo_eviction _ (by decide)

/-- Claim C5: for at most 10 calls from the empty history, the history in
insertion order is exactly the sequence of appended records, so its length is
the number of calls and its order is the call order. -/
theorem history_below_capacity (calls : List HistCall) (h : calls.length ≤ 10) :
    run_history calls = calls.map mk_record ∧
    (run_history calls).length = calls.length := by
  rw [run_history_eq]
  have h0 : calls.length - 10 = 0 := by omega
  rw [h0, List.drop_zero]
  exact ⟨rfl, by simp⟩

/-- Witness for C5 at a concrete two-call sequence. -/
theorem history_below_capacity_witness :
    run_history [⟨"add", 1, 2, 3⟩, ⟨"subtract", 5, 2, 3⟩] =
      List.map mk_record [⟨"add", 1, 2, 3⟩, ⟨"subtract", 5, 2, 3⟩] ∧
    (run_history [(⟨"add", 1, 2, 3⟩ : HistCall), ⟨"subtract", 5, 2, 3⟩]).length =
      ([(⟨"add", 1, 2, 3⟩ : HistCall), ⟨"subtract", 5, 2, 3⟩]).length :=
  history_below_capacity _ (by decide)

/-- Claim C9: every `_add_to_history` call appends a record whose expression
is rendered with the operator symbol bound to the operation: `+`, `-`, `×`,
`÷`, `^` for the five known kinds, and the raw operation name for any other
operation name. -/
theorem operator_symbol_rendering (operation : String) (a b result : ℚ)
    (hist : List HistRecord) :
    (_add_to_history operation a b result hist).getLast? =
      some ⟨operation,
        floatStr a ++ " " ++ _get_operator_symbol operation ++ " " ++ floatStr b,
        result⟩ ∧
    _get_operator_symbol "add" = "+" ∧
    _get_operator_symbol "subtract" = "-" ∧
    _get_operator_symbol "multiply" = "×" ∧
    _get_operator_symbol "divide" = "÷" ∧
    _get_operator_symbol "power" = "^" ∧
    (operation ≠ "add" → operation ≠ "subtract" → operation ≠ "multiply" →
      operation ≠ "divide" → operation ≠ "power" →
      _get_operator_symbol operation = operation) := by
  refine ⟨?_, rfl, rfl, rfl, rfl, rfl, ?_⟩
  · rw [_add_to_history]
    by_cases hlen :
        (hist ++ [(⟨operation,
          floatStr a ++ " " ++ _get_operator_symbol operation ++ " " ++ floatStr b,
          result⟩ : HistRecord)]).length > 10
    · rw [if_pos hlen]
      cases hist with
      | nil => simp at hlen
      | cons x hs => simp
    · rw [if_neg hlen]
      exact List.getLast?_concat _
  · intro h1 h2 h3 h4 h5
    simp [_get_operator_symbol, h1, h2, h3, h4, h5]

/-- Witness for C9 at an unknown operation name. -/
theorem operator_symbol_rendering_witness :
    _get_operator_symbol "modulo" = "modulo" ∧
    (_add_to_history "modulo" 1 2 3 []).getLast? =
      some ⟨"modulo", floatStr 1 ++ " " ++ _get_operator_symbol "modulo" ++ " " ++ floatStr 2, 3⟩ :=
  ⟨(operator_symbol_rendering "modulo" 1 2 3 []).2.2.2.2.2.2
      (by decide) (by decide) (by decide) (by decide) (by decide),
    (operator_symbol_rendering "modulo" 1 2 3 []).1⟩

/-! ## Store lemmas -/

/-- A substring of the right part of an append is a substring of the whole. -/
theorem charsContain_append_right (n xs ys : List Char)
    (h : charsContain n ys = true) : charsContain n (xs ++ ys) = true := by
  induction xs with
  | nil => simpa using h
  | cons x rest ih =>
    show (charsStartWith n (x :: (rest ++ ys)) || charsContain n (rest ++ ys)) = true
    rw [ih, Bool.or_true]

/-- Filtering for an absent key yields nothing. -/
theorem filter_eq_nil_of_not_mem (stored : Store) (name : String)
    (h : name ∉ stored.map Prod.fst) :
    stored.filter (fun p => p.1 == name) = [] := by
  induction stored with
  | nil => rfl
  | cons q rest ih =>
    simp only [List.map_cons, List.mem_cons, not_or] at h
    rw [List.filter_cons, if_neg (by simp [beq_iff_eq]; exact fun hh => h.1 hh.symm)]
    exact ih h.2

/-- Key membership after a dict update. -/
theorem dict_set_keys_mem (stored : Store) (name m : String) (v : ℚ) :
    m ∈ (dict_set stored name v).map Prod.fst ↔
      m ∈ stored.map Prod.fst ∨ m = name := by
  induction stored with
  | nil => simp [dict_set]
  | cons q rest ih =>
    obtain ⟨k, w⟩ := q
    by_cases hk : k = name
    · simp only [dict_set, if_pos hk, List.map_cons, List.mem_cons]
      subst hk
      tauto
    · simp only [dict_set, if_neg hk, List.map_cons, List.mem_cons, ih]
      tauto

/-- Dict update preserves key uniqueness. -/
theorem dict_set_keys_nodup (stored : Store) (name : String) (v : ℚ)
    (h : (stored.map Prod.fst).Nodup) :
    ((dict_set stored name v).map Prod.fst).Nodup := by
  induction stored with
  | nil => simp [dict_set]
  | cons q rest ih =>
    obtain ⟨k, w⟩ := q
    simp only [List.map_cons, List.nodup_cons] at h
    by_cases hk : k = name
    · simp only [dict_set, if_pos hk, List.map_cons, List.nodup_cons]
      exact h
    · simp only [dict_set, if_neg hk, List.map_cons, List.nodup_cons]
      refine ⟨?_, ih h.2⟩
      rw [dict_set_keys_mem]
      rintro (hmem | hage)
      · exact h.1 hmem
      · exact hk hage

/-- With unique keys, the update leaves exactly one binding for the key. -/
theorem dict_set_filter (stored : Store) (name : String) (v : ℚ)
    (h : (stored.map Prod.fst).Nodup) :
    (dict_set stored name v).filter (fun p => p.1 == name) = [(name, v)] := by
  induction stored with
  | nil => simp [dict_set]
  | cons q rest ih =>
    obtain ⟨k, w⟩ := q
    simp only [List.map_cons, List.nodup_cons] at h
    by_cases hk : k = name
    · subst hk
      have hstep : dict_set ((k, w) :: rest) k v = (k, v) :: rest := by
        simp [dict_set]
      rw [hstep, List.filter_cons, if_pos (by simp),
        filter_eq_nil_of_not_mem rest k h.1]
    · simp only [dict_set, if_neg hk, List.filter_cons]
      rw [if_neg (by simp [beq_iff_eq, hk])]
      exact ih h.2

/-- Updating a present key does not change the dict size. -/
theorem dict_set_length_mem (stored : Store) (name : String) (v : ℚ)
    (h : name ∈ stored.map Prod.fst) :
    (dict_set stored name v).length = stored.length := by
  induction stored with
  | nil => simp at h
  | cons q rest ih =>
    obtain ⟨k, w⟩ := q
    by_cases hk : k = name
    · simp [dict_set, hk]
    · simp only [List.map_cons, List.mem_cons] at h
      rcases h with h1 | h2
      · exact absurd h1.symm hk
      · simp [dict_set, hk, ih h2]

/-- The updated key is always present afterwards. -/
theorem dict_set_mem_self (stored : Store) (name : String) (v : ℚ) :
    name ∈ (dict_set stored name v).map Prod.fst := by
  rw [dict_set_keys_mem]
  right
  rfl

/-- Claim C4: on a zero denominator, `divide` returns the error dict and
leaves the calculation history and the value store unchanged; the history is
appended to only on the success path. -/
theorem divide_by_zero_preserves_state (a b : ℚ) (st : CalcState) (hb : b = 0) :
    (divide a b st).1 = DivideResult.error "divide" "Cannot divide by zero" ∧
    (divide a b st).2.calculation_history = st.calculation_history ∧
    (divide a b st).2.stored_values = st.stored_values := by
  subst hb
  simp [divide]

/-- Witness for C4 at a concrete state. -/
theorem divide_by_zero_preserves_state_witness :
    (divide 1 0 ⟨[("pi", 3)], []⟩).1 = DivideResult.error "divide" "Cannot divide by zero" ∧
    (divide 1 0 ⟨[("pi", 3)], []⟩).2.calculation_history =
      (⟨[("pi", 3)], []⟩ : CalcState).calculation_history ∧
    (divide 1 0 ⟨[("pi", 3)], []⟩).2.stored_values =
      (⟨[("pi", 3)], []⟩ : CalcState).stored_values :=
  divide_by_zero_preserves_state 1 0 ⟨[("pi", 3)], []⟩ rfl

/-- Claim C6: for an absent name, `get_stored_number` returns the not-found
error payload whose message hints at `list_stored_numbers` (never a found
value); for a present name it returns the stored value. -/
theorem get_stored_number_spec (stored : Store) (name : String) :
    (dict_get stored name = none →
      get_stored_number name stored =
        .not_found name ("No stored value found for \x27" ++ name ++
          "\x27. Use list_stored_numbers to see available values.") ∧
      pyIn "list_stored_numbers"
        ("No stored value found for \x27" ++ name ++
          "\x27. Use list_stored_numbers to see available values.") = true ∧
      ∀ v, get_stored_number name stored ≠ .found name v) ∧
    (∀ v, dict_get stored name = some v →
      get_stored_number name stored = .found name v) := by
  constructor
  · intro h
    refine ⟨by simp [get_stored_number, h], ?_, ?_⟩
    · rw [pyIn]
      have hdata : ("No stored value found for \x27" ++ name ++
            "\x27. Use list_stored_numbers to see available values.").data =
          ("No stored value found for \x27" ++ name).data ++
            ("\x27. Use list_stored_numbers to see available values.").data := by
        simp [String.data_append]
      rw [hdata]
      exact charsContain_append_right _ _ _ (by decide)
    · intro v hv
      simp [get_stored_number, h] at hv
  · intro v h
    simp [get_stored_number, h]

/-- Witness for C6 at a concrete store, one absent and one present name. -/
theorem get_stored_number_spec_witness :
    get_stored_number "x" [("pi", 3)] =
      .not_found "x" ("No stored value found for \x27" ++ "x" ++
        "\x27. Use list_stored_numbers to see available values.") ∧
    get_stored_number "pi" [("pi", 3)] = .found "pi" 3 :=
  ⟨((get_stored_number_spec [("pi", 3)] "x").1 (by decide)).1,
    (get_stored_number_spec [("pi", 3)] "pi").2 3 (by decide)⟩

/-- Claim C7: storing a value twice under the same name overwrites: the store
ends with exactly one binding for the name, holding the second value, and the
second call does not change the store size. -/
theorem store_number_overwrite (stored : Store) (name : String) (v1 v2 : ℚ)
    (h : (stored.map Prod.fst).Nodup) :
    ((store_number name v2 (store_number name v1 stored).2).2).filter
        (fun p => p.1 == name) = [(name, v2)] ∧
    ((store_number name v2 (store_number name v1 stored).2).2).length =
      ((store_number name v1 stored).2).length := by
  constructor
  · show (dict_set (dict_set stored name v1) name v2).filter
        (fun p => p.1 == name) = [(name, v2)]
    exact dict_set_filter _ _ _ (dict_set_keys_nodup stored name v1 h)
  · show (dict_set (dict_set stored name v1) name v2).length =
      (dict_set stored name v1).length
    exact dict_set_length_mem _ _ _ (dict_set_mem_self stored name v1)

/-- Witness for C7 at a concrete store. -/
theorem store_number_overwrite_witness :
    ((store_number "a" 2 (store_number "a" 1 [("x", 5)]).2).2).filter
        (fun p => p.1 == "a") = [("a", 2)] ∧
    ((store_number "a" 2 (store_number "a" 1 [("x", 5)]).2).2).length =
      ((store_number "a" 1 [("x", 5)]).2).length :=
  store_number_overwrite [("x", 5)] "a" 1 2 (by decide)

/-- Claim C8: `clear_storage` on a store with N entries reports N removed
entries and leaves the store empty. -/
theorem clear_storage_spec (stored : Store) :
    (clear_storage stored).1.message =
      "Cleared " ++ toString stored.length ++ " stored value(s)" ∧
    (clear_storage stored).2 = [] ∧
    (clear_storage stored).2.length = 0 ∧
    (clear_storage stored).1.stored_values = [] :=
  ⟨rfl, rfl, rfl, rfl⟩

/-! ## Sortedness of the stored-values resource enumeration -/

/-- The character-list comparison is total. -/
theorem charsLe_total (xs ys : List Char) :
    charsLe xs ys = true ∨ charsLe ys xs = true := by
  induction xs generalizing ys with
  | nil => left; rfl
  | cons c cs ih =>
    cases ys with
    | nil => right; rfl
    | cons d ds =>
      by_cases hcd : c = d
      · subst hcd
        rcases ih ds with h | h
        · left; simp [charsLe, h]
        · right; simp [charsLe, h]
      · rcases lt_trichotomy c d with hlt | heq | hgt
        · left; simp [charsLe, hcd, hlt]
        · exact absurd heq hcd
        · right; simp [charsLe, Ne.symm hcd, hgt]

/-- String comparison is total. -/
theorem strLe_total (s t : String) (h : ¬ strLe s t = true) : strLe t s = true := by
  rcases charsLe_total s.data t.data with h1 | h1
  · exact absurd h1 h
  · exact h1

/-- Inserting into a name-sorted pair list keeps it sorted. -/
theorem insert_pair_sorted (p : String × ℚ) (l : List (String × ℚ))
    (h : is_sorted_by_name l = true) :
    is_sorted_by_name (insert_pair p l) = true := by
  induction l with
  | nil => rfl
  | cons q rest ih =>
    by_cases hle : strLe p.1 q.1 = true
    · have hins : insert_pair p (q :: rest) = p :: q :: rest := by
        simp [insert_pair, hle]
      rw [hins]
      show (strLe p.1 q.1 && is_sorted_by_name (q :: rest)) = true
      rw [hle, h]
      rfl
    · have hq : strLe q.1 p.1 = true := strLe_total _ _ hle
      have hins : insert_pair p (q :: rest) = q :: insert_pair p rest := by
        simp [insert_pair, hle]
      rw [hins]
      cases rest with
      | nil =>
        show (strLe q.1 p.1 && is_sorted_by_name [p]) = true
        rw [hq]
        rfl
      | cons r rs =>
        have h1 : strLe q.1 r.1 = true := by
          have hh : (strLe q.1 r.1 && is_sorted_by_name (r :: rs)) = true := h
          exact (Bool.and_eq_true_iff.mp hh).1
        have h2 : is_sorted_by_name (r :: rs) = true := by
          have hh : (strLe q.1 r.1 && is_sorted_by_name (r :: rs)) = true := h
          exact (Bool.and_eq_true_iff.mp hh).2
        by_cases hpr : strLe p.1 r.1 = true
        · have hins2 : insert_pair p (r :: rs) = p :: r :: rs := by
            simp [insert_pair, hpr]
          rw [hins2]
          show (strLe q.1 p.1 &&
            (strLe p.1 r.1 && is_sorted_by_name (r :: rs))) = true
          rw [hq, hpr, h2]
          rfl
        · have hins2 : insert_pair p (r :: rs) = r :: insert_pair p rs := by
            simp [insert_pair, hpr]
          rw [hins2]
          have h3 : is_sorted_by_name (r :: insert_pair p rs) = true := by
            have h4 := ih h2
            rw [hins2] at h4
            exact h4
          show (strLe q.1 r.1 && is_sorted_by_name (r :: insert_pair p rs)) = true
          rw [h1, h3]
          rfl

/-- Insertion sort on pair lists produces a name-sorted list. -/
theorem sort_pairs_sorted (l : List (String × ℚ)) :
    is_sorted_by_name (sort_pairs l) = true := by
  induction l with
  | nil => rfl
  | cons p rest ih => exact insert_pair_sorted p _ ih

/-- Claim C3 counterexample: after storing "b" then "a", the pair sequence
produced by `list_stored_numbers` is in insertion order with "b" first, hence
not sorted lexicographically by name. -/
theorem list_stored_numbers_unsorted_counterexample :
    (list_stored_numbers (dict_set (dict_set [] "b" 1) "a" 2)).stored_values =
      [("b", 1), ("a", 2)] ∧
    is_sorted_by_name
      (list_stored_numbers (dict_set (dict_set [] "b" 1) "a" 2)).stored_values
      = false := by
  decide

/-- Claim C3 (amended): the stored-values resource enumeration is always
sorted lexicographically by name regardless of insertion order, while
`list_stored_numbers` returns the stored pairs in dictionary insertion order,
not sorted. -/
theorem stored_values_resource_sorted (stored : Store) :
    is_sorted_by_name (get_stored_values_items stored) = true ∧
    (list_stored_numbers stored).stored_values = stored :=
  ⟨sort_pairs_sorted stored, rfl⟩

/-! ## Search loop lemmas -/

/-- Unfolding of the search loop at a matching entry. -/
theorem search_loop_cons_match (ql : String) (m : ℤ) (e : FeedEntry)
    (rest : List FeedEntry) (acc : List SearchItem)
    (hmatch : entry_matches ql e = true) :
    search_loop ql m (e :: rest) acc =
      if (((acc ++ [SearchItem.article e.title e.link e.published]).length : ℤ) ≥ m)
      then acc ++ [SearchItem.article e.title e.link e.published]
      else search_loop ql m rest
        (acc ++ [SearchItem.article e.title e.link e.published]) := by
  simp [search_loop, hmatch]

/-- Unfolding of the search loop at a non-matching entry. -/
theorem search_loop_cons_nomatch (ql : String) (m : ℤ) (e : FeedEntry)
    (rest : List FeedEntry) (acc : List SearchItem)
    (hmatch : entry_matches ql e = false) :
    search_loop ql m (e :: rest) acc =
      if ((acc.length : ℤ) ≥ m) then acc else search_loop ql m rest acc := by
  simp [search_loop, hmatch]

/-- Every item the loop returns is carried over or comes from a matching
entry. -/
theorem search_loop_mem (ql : String) (m : ℤ) (es : List FeedEntry) :
    ∀ acc it, it ∈ search_loop ql m es acc →
      it ∈ acc ∨ ∃ e ∈ es, entry_matches ql e = true ∧
        it = SearchItem.article e.title e.link e.published := by
  induction es with
  | nil => intro acc it hit; exact Or.inl hit
  | cons e rest ih =>
    intro acc it hit
    by_cases hmatch : entry_matches ql e = true
    · rw [search_loop_cons_match _ _ _ _ _ hmatch] at hit
      have process : it ∈ acc ++ [SearchItem.article e.title e.link e.published] →
          it ∈ acc ∨ ∃ e' ∈ e :: rest, entry_matches ql e' = true ∧
            it = SearchItem.article e'.title e'.link e'.published := by
        intro hin
        rcases List.mem_append.mp hin with h1 | h1
        · exact Or.inl h1
        · right
          exact ⟨e, List.mem_cons_self _ _, hmatch, by simpa using h1⟩
      by_cases hb : (((acc ++ [SearchItem.article e.title e.link e.published]).length : ℤ) ≥ m)
      · rw [if_pos hb] at hit
        exact process hit
      · rw [if_neg hb] at hit
        rcases ih _ it hit with h1 | h1
        · exact process h1
        · obtain ⟨e', he', hme, heq⟩ := h1
          exact Or.inr ⟨e', List.mem_cons_of_mem _ he', hme, heq⟩
    · rw [search_loop_cons_nomatch _ _ _ _ _ (by simpa using hmatch)] at hit
      by_cases hb : ((acc.length : ℤ) ≥ m)
      · rw [if_pos hb] at hit
        exact Or.inl hit
      · rw [if_neg hb] at hit
        rcases ih acc it hit with h1 | h1
        · exact Or.inl h1
        · obtain ⟨e', he', hme, heq⟩ := h1
          exact Or.inr ⟨e', List.mem_cons_of_mem _ he', hme, heq⟩

/-- When no entry matches, the loop returns its accumulator unchanged. -/
theorem search_loop_no_match (ql : String) (m : ℤ) (es : List FeedEntry) :
    ∀ acc, (∀ e ∈ es, entry_matches ql e = false) →
      search_loop ql m es acc = acc := by
  induction es with
  | nil => intro acc _; rfl
  | cons e rest ih =>
    intro acc h
    rw [search_loop_cons_nomatch _ _ _ _ _ (h e (List.mem_cons_self _ _))]
    by_cases hb : ((acc.length : ℤ) ≥ m)
    · rw [if_pos hb]
    · rw [if_neg hb]
      exact ih acc (fun e' he' => h e' (List.mem_cons_of_mem _ he'))

/-- With a positive bound and either a non-empty accumulator or some matching
entry, the loop returns a non-empty list. -/
theorem search_loop_ne_nil (ql : String) (m : ℤ) (hm : 1 ≤ m)
    (es : List FeedEntry) :
    ∀ acc, (acc ≠ [] ∨ ∃ e ∈ es, entry_matches ql e = true) →
      search_loop ql m es acc ≠ [] := by
  induction es with
  | nil =>
    intro acc h
    rcases h with h | ⟨e, he, _⟩
    · exact h
    · simp at he
  | cons e rest ih =>
    intro acc h
    by_cases hmatch : entry_matches ql e = true
    · rw [search_loop_cons_match _ _ _ _ _ hmatch]
      have hne : acc ++ [SearchItem.article e.title e.link e.published] ≠ [] := by
        simp
      by_cases hb : (((acc ++ [SearchItem.article e.title e.link e.published]).length : ℤ) ≥ m)
      · rw [if_pos hb]
        exact hne
      · rw [if_neg hb]
        exact ih _ (Or.inl hne)
    · rw [search_loop_cons_nomatch _ _ _ _ _ (by simpa using hmatch)]
      rcases h with hne | ⟨e', he', hme⟩
      · by_cases hb : ((acc.length : ℤ) ≥ m)
        · rw [if_pos hb]
          exact hne
        · rw [if_neg hb]
          exact ih acc (Or.inl hne)
      · have hrest : e' ∈ rest := by
          rcases List.mem_cons.mp he' with rfl | hr
          · exact absurd hme hmatch
          · exact hr
        by_cases hacc : acc = []
        · subst hacc
          have hb : ¬ (((([] : List SearchItem).length : ℤ)) ≥ m) := by
            simp
            omega
          rw [if_neg hb]
          exact ih [] (Or.inr ⟨e', hrest, hme⟩)
        · by_cases hb : ((acc.length : ℤ) ≥ m)
          · rw [if_pos hb]
            exact hacc
          · rw [if_neg hb]
            exact ih acc (Or.inl hacc)

/-- Claim C10 counterexample: with `max_results = 0` the break fires after the
first (non-matching) entry, so the no-content message is returned even though
the second entry matches the query. -/
theorem search_zero_max_results_counterexample :
    entry_matches (pyLower "x") ⟨"x", "", "", ""⟩ = true ∧
    search_teradata_university [⟨"a", "b", "", ""⟩, ⟨"x", "", "", ""⟩] "x" 0 =
      [SearchItem.message "No content found matching your query"] := by
  decide

/-- Claim C10 (amended): `search_teradata_university` never returns an empty
list; when `max_results` is at least 1, a query matching no entry yields the
singleton no-content message, and when some entry matches, every returned
item is a matching article. -/
theorem search_never_empty (entries : List FeedEntry) (query : String)
    (max_results : ℤ) (hm : 1 ≤ max_results) :
    search_teradata_university entries query max_results ≠ [] ∧
    ((∀ e ∈ entries, entry_matches (pyLower query) e = false) →
      search_teradata_university entries query max_results =
        [SearchItem.message "No content found matching your query"]) ∧
    ((∃ e ∈ entries, entry_matches (pyLower query) e = true) →
      ∀ it ∈ search_teradata_university entries query max_results,
        ∃ e ∈ entries, entry_matches (pyLower query) e = true ∧
          it = SearchItem.article e.title e.link e.published) := by
  refine ⟨?_, ?_, ?_⟩
  · simp only [search_teradata_university]
    by_cases hr : search_loop (pyLower query) max_results entries [] = []
    · rw [if_pos hr]
      simp
    · rw [if_neg hr]
      exact hr
  · intro h
    simp only [search_teradata_university,
      search_loop_no_match (pyLower query) max_results entries [] h]
    rfl
  · intro hex it hit
    have hne : search_loop (pyLower query) max_results entries [] ≠ [] :=
      search_loop_ne_nil _ _ hm _ [] (Or.inr hex)
    simp only [search_teradata_university, if_neg hne] at hit
    rcases search_loop_mem _ _ _ [] it hit with h1 | h1
    · simp at h1
    · exact h1

/-- Witness for the amended C10 at concrete feeds, one matching and one not. -/
theorem search_never_empty_witness :
    search_teradata_university [⟨"Intro to SQL", "basics", "u", "d"⟩] "sql" 3 ≠ [] ∧
    search_teradata_university [⟨"Intro to SQL", "basics", "u", "d"⟩] "nope" 3 =
      [SearchItem.message "No content found matching your query"] :=
  ⟨(search_never_empty [⟨"Intro to SQL", "basics", "u", "d"⟩] "sql" 3 (by decide)).1,
    (search_never_empty [⟨"Intro to SQL", "basics", "u", "d"⟩] "nope" 3
      (by decide)).2.1 (by decide)⟩
